import Mathlib

/-
  Verification of the zipfs package (filesys.go): a zip archive exposed as a
  read-only hierarchical filesystem.

  The Go code is shallowly embedded: the zip archive layer is modeled at its
  interface boundary (an entry has a name, the two uncompressed-size fields,
  a directory flag from its mode, and an uncompressed content stream), maps
  are association lists where an insert conses a binding in front (lookup
  finds the newest binding, matching Go map update), pointers to fileInfo
  nodes are natural-number ids into a store, and the operating-system world
  (temporary files) is threaded explicitly.  A nil-pointer dereference is
  modeled by a distinguished crash result.
-/

namespace Zipfs

/-! ### Association-list maps (Go map semantics: insert = cons, lookup = newest) -/

def lookupM {α β : Type} [DecidableEq α] (k : α) : List (α × β) → Option β
  | [] => none
  | (k2, v) :: rest => if k = k2 then some v else lookupM k rest

instance {ε α : Type} [DecidableEq ε] [DecidableEq α] : DecidableEq (Except ε α) := fun a b =>
  match a, b with
  | .error e1, .error e2 => decidable_of_iff (e1 = e2) (by simp)
  | .error _, .ok _ => .isFalse (fun hc => Except.noConfusion hc)
  | .ok _, .error _ => .isFalse (fun hc => Except.noConfusion hc)
  | .ok v1, .ok v2 => decidable_of_iff (v1 = v2) (by simp)

/-! ### Path helpers (Go strings.TrimLeft / strings.TrimRight with cutset "/") -/

def trimRightSlashes (s : String) : String :=
  String.mk ((s.toList.reverse.dropWhile (fun c => c = '/')).reverse)

def trimLeftSlashes (s : String) : String :=
  String.mk (s.toList.dropWhile (fun c => c = '/'))

def endsWithSlash (s : String) : Bool :=
  s.toList.getLast? = some '/'

/-! ### path.Clean (Go path package, slash-separated lexical cleaning) -/

def backW (b : List Char) (dotdot : Nat) : Nat → Nat
  | 0 => 0
  | w + 1 =>
    if dotdot < w + 1 ∧ b.get? (w + 1) ≠ some '/' then backW b dotdot w else w + 1

def backtrack (b : List Char) (dotdot : Nat) : List Char :=
  b.take (backW b dotdot (b.length - 1))

/-- The loop of path.Clean.  The first argument is fuel, set by pathClean to
the length of the remaining path; every iteration consumes at least one
character, so the fuel never runs out — it only makes the recursion
structural so that the kernel can evaluate it. -/
def cleanCore : Nat → List Char → List Char → Bool → Nat → List Char
  | _, [], out, _, _ => out
  | 0, _ :: _, out, _, _ => out
  | fuel + 1, ch :: rest, out, rooted, dotdot =>
    if ch = '/' then
      -- empty path element
      cleanCore fuel rest out rooted dotdot
    else if ch = '.' ∧ (rest = [] ∨ rest.head? = some '/') then
      -- . element
      cleanCore fuel rest out rooted dotdot
    else if ch = '.' ∧ rest.head? = some '.' ∧
        (rest.tail = [] ∨ rest.tail.head? = some '/') then
      -- .. element: remove to last /
      if dotdot < out.length then
        cleanCore fuel rest.tail (backtrack out dotdot) rooted dotdot
      else if ¬rooted then
        -- cannot backtrack, but not rooted, so append .. element
        let out2 := (if 0 < out.length then out ++ ['/'] else out) ++ ['.', '.']
        cleanCore fuel rest.tail out2 rooted out2.length
      else
        cleanCore fuel rest.tail out rooted dotdot
    else
      -- real path element; add slash if needed, then copy the element
      -- (the guard of the first branch gives ch different from the slash)
      let out2 :=
        if (rooted ∧ out.length ≠ 1) ∨ (¬rooted ∧ out.length ≠ 0) then out ++ ['/'] else out
      cleanCore fuel (rest.dropWhile (fun c => c ≠ '/'))
        (out2 ++ ch :: rest.takeWhile (fun c => c ≠ '/')) rooted dotdot

def pathClean (s : String) : String :=
  if s = "" then "."
  else
    let cs := s.toList
    let rooted := cs.head? = some '/'
    let res :=
      if rooted then cleanCore cs.tail.length cs.tail ['/'] true 1
      else cleanCore cs.length cs [] false 0
    if res = [] then "." else String.mk res

/-! ### path.Dir and path.Base (Go path package) -/

def pathDir (s : String) : String :=
  -- path.Split keeps everything up to and including the final slash; Dir cleans it
  pathClean (String.mk ((s.toList.reverse.dropWhile (fun c => c ≠ '/')).reverse))

def pathBase (s : String) : String :=
  if s = "" then "."
  else
    let cs := s.toList.reverse.dropWhile (fun c => c = '/')
    -- cs is the reversed path with trailing slashes stripped
    let base := cs.takeWhile (fun c => c ≠ '/')
    if base = [] then "/" else String.mk base.reverse

/-! ### The archive layer interface (zip.File at its boundary) -/

structure ZipEntry where
  name : String
  uncompressedSize : Nat    -- legacy 32-bit field (uint32)
  uncompressedSize64 : Nat  -- extended 64-bit field (uint64)
  isDir : Bool              -- zf.Mode().IsDir() as reported by the archive layer
  content : List Nat        -- uncompressed byte stream produced by zf.Open()
  deriving DecidableEq, Repr

/-- Signed 64-bit interpretation of a natural number, as in the Go int64 casts
of the uint32/uint64 size fields. -/
def int64OfNat (n : Nat) : Int :=
  let m : Nat := n % 2 ^ 64
  if m < 2 ^ 63 then (m : Int) else (m : Int) - 2 ^ 64

/-! ### fileInfo nodes and the index (fileInfoMap) -/

structure FileInfoN where
  name : String
  zipFile : Option ZipEntry
  fileInfos : List Nat      -- child node ids, in insertion order until sorted
  deriving DecidableEq, Repr

def FileInfoN.Name (fi : FileInfoN) : String :=
  pathBase fi.name

def FileInfoN.Size (fi : FileInfoN) : Int :=
  match fi.zipFile with
  | none => 0
  | some zf =>
    if zf.uncompressedSize64 % (2 ^ 64 : Nat) = 0 then
      int64OfNat (zf.uncompressedSize % (2 ^ 32 : Nat))
    else int64OfNat (zf.uncompressedSize64 % (2 ^ 64 : Nat))

def FileInfoN.IsDir (fi : FileInfoN) : Bool :=
  match fi.zipFile with
  | none => true
  | some zf => zf.isDir

/-- fi.Mode().IsDir(): Mode returns a directory mode when the node has no
archive record or the record is a directory. -/
def FileInfoN.modeIsDir (fi : FileInfoN) : Bool :=
  fi.zipFile.isNone || fi.IsDir

/-- Build-time state: the fileInfoMap (path key to node id), the node store
(pointer identity modeled by ids), and the next fresh id. -/
structure BuildSt where
  fm : List (String × Nat)
  store : List (Nat × FileInfoN)
  next : Nat
  deriving DecidableEq, Repr

def FindOrCreate (st : BuildSt) (name : String) : Nat × BuildSt :=
  let strippedName := trimRightSlashes name
  match lookupM name st.fm with
  | some nid => (nid, st)
  | none =>
    let nid := st.next
    let node : FileInfoN := ⟨name, none, []⟩
    let fm1 := (name, nid) :: st.fm
    let fm2 := if strippedName ≠ name then (strippedName, nid) :: fm1 else fm1
    (nid, { fm := fm2, store := (nid, node) :: st.store, next := nid + 1 })

def parentName (name : String) : String :=
  let strippedName := trimRightSlashes name
  let dirName := pathDir strippedName
  if dirName = "." then "/"
  else if endsWithSlash dirName = false then dirName ++ "/"
  else dirName

def FindOrCreateParent (st : BuildSt) (name : String) : Nat × BuildSt :=
  FindOrCreate st (parentName name)

def setZipFile (st : BuildSt) (nid : Nat) (zf : ZipEntry) : BuildSt :=
  match lookupM nid st.store with
  | none => st
  | some node => { st with store := (nid, { node with zipFile := some zf }) :: st.store }

def appendChild (st : BuildSt) (pid cid : Nat) : BuildSt :=
  match lookupM pid st.store with
  | none => st
  | some node =>
    { st with store := (pid, { node with fileInfos := node.fileInfos ++ [cid] }) :: st.store }

/-- One iteration of the entry loop in New. -/
def addEntry (st : BuildSt) (zf : ZipEntry) : BuildSt :=
  let r1 := FindOrCreate st zf.name
  let st2 := setZipFile r1.2 r1.1 zf
  let r3 := FindOrCreateParent st2 zf.name
  appendChild r3.2 r3.1 r1.1

/-! ### The post-pass sort of each child list (sort.Sort on fileInfoList) -/

def lexLtChars : List Char → List Char → Bool
  | [], [] => false
  | [], _ :: _ => true
  | _ :: _, [] => false
  | a :: as, b :: bs =>
    if a.toNat < b.toNat then true
    else if b.toNat < a.toNat then false
    else lexLtChars as bs

/-- fileInfoList.Less: compare base names. -/
def nodeLess (st : BuildSt) (a b : Nat) : Bool :=
  let na := ((lookupM a st.store).map FileInfoN.Name).getD ""
  let nb := ((lookupM b st.store).map FileInfoN.Name).getD ""
  lexLtChars na.toList nb.toList

def insertSorted (st : BuildSt) (x : Nat) : List Nat → List Nat
  | [] => [x]
  | y :: rest => if nodeLess st y x then y :: insertSorted st x rest else x :: y :: rest

def sortIds (st : BuildSt) : List Nat → List Nat
  | [] => []
  | x :: rest => insertSorted st x (sortIds st rest)

def sortNode (st : BuildSt) (nid : Nat) : BuildSt :=
  match lookupM nid st.store with
  | none => st
  | some node =>
    if 1 < node.fileInfos.length then
      { st with store := (nid, { node with fileInfos := sortIds st node.fileInfos }) :: st.store }
    else st

def dedupKeys : List (String × Nat) → List String → List (String × Nat)
  | [], _ => []
  | (k, v) :: rest, seen =>
    if k ∈ seen then dedupKeys rest seen else (k, v) :: dedupKeys rest (k :: seen)

/-- The range over fs.fileInfos: each distinct key yields its node id. -/
def fmValues (st : BuildSt) : List Nat :=
  (dedupKeys st.fm []).map (fun p => p.2)

def sortPass (st : BuildSt) : BuildSt :=
  (fmValues st).foldl sortNode st

/-- The index construction performed by New: one pass over the entry list,
then the sort of every child list. -/
def buildIndex (entries : List ZipEntry) : BuildSt :=
  sortPass (entries.foldl addEntry ⟨[], [], 0⟩)

/-! ### Build-state invariants (used to settle the index-shape claim) -/

/-- Node cid appears in the child list of the node stored under pid. -/
def childMem (st : BuildSt) (pid cid : Nat) : Prop :=
  ∃ pnode, lookupM pid st.store = some pnode ∧ cid ∈ pnode.fileInfos

/-- Every allocated node id is below the allocation counter. -/
def wfSt (st : BuildSt) : Prop :=
  ∀ nid, (lookupM nid st.store).isSome = true → nid < st.next

/-- Every id the path map points to is allocated in the store. -/
def fmOk (st : BuildSt) : Prop :=
  ∀ k nid, lookupM k st.fm = some nid → (lookupM nid st.store).isSome = true

/-- Whenever the root is registered under "/", its empty-string alias (the
key Open actually consults after trimming) is registered too. -/
def rootAlias (st : BuildSt) : Prop :=
  (lookupM "/" st.fm).isSome = true → (lookupM "" st.fm).isSome = true

/-- Every node carrying an archive record is in the child list of the node
registered under its parent key. -/
def parentLinked (st : BuildSt) : Prop :=
  ∀ nid node zf, lookupM nid st.store = some node → node.zipFile = some zf →
    ∃ pid, lookupM (parentName zf.name) st.fm = some pid ∧ childMem st pid nid

def InvSt (st : BuildSt) : Prop :=
  wfSt st ∧ fmOk st ∧ rootAlias st ∧ parentLinked st

/-! ### Errors -/

inductive ZErr where
  | fileClosed        -- errFileClosed
  | fileSystemClosed  -- errFileSystemClosed
  | notDirectory      -- errNotDirectory
  | isDirectory       -- errDirectory
  | notExist          -- os.ErrNotExist
  | eofSig            -- io.EOF
  | fileAlreadyClosed -- os.ErrClosed, from closing an os.File twice
  | noSuchFile        -- os.ErrNotExist from os.Remove on a missing file
  | seekInvalid       -- negative-position seek error on an os.File
  deriving DecidableEq, Repr

structure PathError where
  op : String
  path : String
  err : ZErr
  deriving DecidableEq, Repr

inductive FsError where
  | raw (e : ZErr)
  | withPath (p : PathError)
  deriving DecidableEq, Repr

/-! ### The filesystem facade (ZipFS) -/

structure ZipFS where
  readerAtPresent : Bool        -- whether fs.readerAt is non-nil
  fileInfosSt : Option BuildSt  -- the index; none models the nil map after Close
  deriving DecidableEq, Repr

/-- New: open the archive and build the index.  The archive layer (os.Open,
zip.NewReader) is modeled as succeeding with the given entry list. -/
def New (entries : List ZipEntry) : ZipFS :=
  ⟨true, some (buildIndex entries)⟩

/-- ZipFS.Close: nils out the reader, the readerAt and the index and closes
the underlying file (whose close succeeds in this model). -/
def ZipFS.Close (_fs : ZipFS) : ZipFS × Option FsError :=
  (⟨false, none⟩, none)

def openFileInfo (fs : ZipFS) (name : String) : Except FsError FileInfoN :=
  if fs.readerAtPresent = false then .error (.raw .fileSystemClosed)
  else
    let cleaned := pathClean name
    let trimmedName := trimLeftSlashes cleaned
    let fiOpt : Option FileInfoN :=
      match fs.fileInfosSt with
      | none => none  -- lookup in the nil map yields the zero value
      | some st => (lookupM trimmedName st.fm).bind (fun nid => lookupM nid st.store)
    match fiOpt with
    | none => .error (.withPath ⟨"Open", cleaned, .notExist⟩)
    | some fi => .ok fi

/-! ### The operating-system world: temporary files -/

structure OSFile where
  name : String
  content : List Nat
  pos : Nat
  closed : Bool
  deriving DecidableEq, Repr

structure World where
  nextTemp : Nat           -- counter feeding fresh temp-file names
  existing : List String   -- names of files currently on disk
  removeCalls : Nat        -- how many times os.Remove has been invoked
  created : Nat            -- how many temp files have been created
  deriving DecidableEq, Repr

/-- ioutil.TempFile plus the io.Copy of the decompressed entry (the
createTempFile helper); it always succeeds in this model and leaves the
file cursor at position 0. -/
def createTempFileExternal (zf : ZipEntry) (w : World) : OSFile × World :=
  let nm := "zipfs" ++ toString w.nextTemp
  (⟨nm, zf.content, 0, false⟩,
   { w with nextTemp := w.nextTemp + 1, existing := nm :: w.existing,
            created := w.created + 1 })

def osRemove (w : World) (nm : String) : Option ZErr × World :=
  let w1 := { w with removeCalls := w.removeCalls + 1 }
  if nm ∈ w1.existing then (none, { w1 with existing := w1.existing.erase nm })
  else (some .noSuchFile, w1)

def osfClose (o : OSFile) : Option ZErr × OSFile :=
  if o.closed then (some .fileAlreadyClosed, o) else (none, { o with closed := true })

def osfRead (o : OSFile) (plen : Nat) : List Nat × Option ZErr × OSFile :=
  if o.closed then ([], some .fileAlreadyClosed, o)
  else if plen = 0 then ([], none, o)
  else
    let rem := o.content.drop o.pos
    if rem = [] then ([], some .eofSig, o)
    else
      let d := rem.take plen
      (d, none, { o with pos := o.pos + d.length })

def osfSeek (o : OSFile) (offset whence : Int) : Except ZErr (Int × OSFile) :=
  if o.closed then .error .fileAlreadyClosed
  else
    let newPos : Int :=
      if whence = 0 then offset
      else if whence = 1 then (o.pos : Int) + offset
      else (o.content.length : Int) + offset
    if newPos < 0 then .error .seekInvalid
    else .ok (newPos, { o with pos := newPos.toNat })

/-- A sequential decompression stream read: the remaining bytes shrink. -/
def streamRead (rem : List Nat) (plen : Nat) : List Nat × Option ZErr × List Nat :=
  if plen = 0 then ([], none, rem)
  else if rem = [] then ([], some .eofSig, [])
  else (rem.take plen, none, rem.drop plen)

/-! ### File handles (fileReader) -/

structure FileReader where
  name : String               -- the name used to open
  fileInfo : FileInfoN
  reader : Option (List Nat)  -- live decompression stream: remaining bytes
  file : Option OSFile        -- materialized temp file
  closed : Bool
  readdir : Option (List Nat) -- cached child list; none models the Go nil slice
  deriving DecidableEq, Repr

def openReader (fi : FileInfoN) (name : String) : FileReader :=
  ⟨name, fi, none, none, false, none⟩

/-- ZipFS.Open. -/
def ZipFS.Open (fs : ZipFS) (name : String) : Except FsError FileReader :=
  match openFileInfo fs name with
  | .error e => .error e
  | .ok fi => .ok (openReader fi name)

/-- fileReader.Close: collect the error of each release step (stream close,
temp-file close, temp-file removal), set the closed flag, and return the
first failure wrapped as a Close path error.  The stream close never fails
in this model.  Note the code does not consult or clear any field first, so
every call repeats the release work. -/
def fileReaderClose (f : FileReader) (w : World) : Option FsError × FileReader × World :=
  let errs1 : List (Option ZErr) := if f.reader.isSome then [none] else []
  let step2 : List (Option ZErr) × FileReader × String :=
    match f.file with
    | some o =>
      let r := osfClose o
      (errs1 ++ [r.1], { f with file := some r.2 }, o.name)
    | none => (errs1, f, "")
  let step3 : List (Option ZErr) × World :=
    if step2.2.2 ≠ "" then
      let r := osRemove w step2.2.2
      (step2.1 ++ [r.1], r.2)
    else (step2.1, w)
  let f2 := { step2.2.1 with closed := true }
  match step3.1.filterMap id with
  | [] => (none, f2, step3.2)
  | e :: _ => (some (.withPath ⟨"Close", f.name, e⟩), f2, step3.2)

inductive ReadRes where
  | crash  -- nil-pointer dereference: zipFile.Open() through a nil *zip.File
  | ret (data : List Nat) (err : Option FsError) (f : FileReader)
  deriving DecidableEq, Repr

/-- fileReader.Read. -/
def fileReaderRead (f : FileReader) (plen : Nat) : ReadRes :=
  if f.closed then .ret [] (some (.withPath ⟨"Read", f.name, .fileClosed⟩)) f
  else
    match f.file with
    | some o =>
      let r := osfRead o plen
      .ret r.1 (r.2.1.map .raw) { f with file := some r.2.2 }
    | none =>
      match f.reader with
      | some rem =>
        let r := streamRead rem plen
        .ret r.1 (r.2.1.map .raw) { f with reader := some r.2.2 }
      | none =>
        match f.fileInfo.zipFile with
        | none => .crash  -- f.fileInfo.zipFile.Open() dereferences a nil pointer
        | some zf =>
          let r := streamRead zf.content plen
          .ret r.1 (r.2.1.map .raw) { f with reader := some r.2.2 }

/-- fileReader.createTempFile: closes any live stream, then materializes the
entry into a fresh temp file when none exists yet.  none models the
nil-pointer crash when the node carries no archive record. -/
def createTempFileM (f : FileReader) (w : World) : Option (OSFile × FileReader × World) :=
  let f1 := if f.reader.isSome then { f with reader := none } else f
  match f1.file with
  | some o => some (o, f1, w)
  | none =>
    match f1.fileInfo.zipFile with
    | none => none
    | some zf =>
      let r := createTempFileExternal zf w
      some (r.1, { f1 with file := some r.1 }, r.2)

inductive SeekRes where
  | crash (w : World)
  | ret (n : Int) (err : Option FsError) (f : FileReader) (w : World)
  deriving DecidableEq, Repr

/-- fileReader.Seek.  A live stream is closed first (never fails here); a
seek to offset 0 with whence 0 on a non-materialized handle just reopens the
stream; anything else materializes a temp file and seeks in it. -/
def fileReaderSeek (f : FileReader) (offset whence : Int) (w : World) : SeekRes :=
  if f.closed then .ret 0 (some (.withPath ⟨"Seek", f.name, .fileClosed⟩)) f w
  else
    if f.file.isNone ∧ offset = 0 ∧ whence = 0 then
      match f.fileInfo.zipFile with
      | none => .crash w  -- zipFile.Open() through a nil *zip.File
      | some zf => .ret 0 none { f with reader := some zf.content } w
    else
      match createTempFileM f w with
      | none => .crash w
      | some (o, f1, w1) =>
        match osfSeek o offset whence with
        | .error e => .ret 0 (some (.raw e)) f1 w1
        | .ok r => .ret r.1 none { f1 with file := some r.2 } w1

/-! ### Readdir -/

/-- fileInfo.readdir: directory check, then a copy of the child list. -/
def FileInfoN.readdirList (fi : FileInfoN) : Except ZErr (List Nat) :=
  if fi.modeIsDir = false then .error .notDirectory else .ok fi.fileInfos

/-- The count-driven pagination over the cached child list: same branches as
fileReader.Readdir, acting on the node and the cache. -/
def readdirCore (fi : FileInfoN) (cache : Option (List Nat)) (count : Int) :
    Except ZErr (List Nat × Bool) × Option (List Nat) :=
  if 0 < count then
    match (match cache with
           | none => fi.readdirList
           | some m => .ok m : Except ZErr (List Nat)) with
    | .error e => (.error e, cache)
    | .ok m =>
      if count ≤ (m.length : Int) then
        (.ok (m.take count.toNat, false), some (m.drop count.toNat))
      else
        (.ok (m, true), none)
  else
    match fi.readdirList with
    | .error e => (.error e, cache)
    | .ok l => (.ok (l, false), cache)

inductive RdRes where
  | err (e : PathError) (f : FileReader)
  | ok (page : List Nat) (eof : Bool) (f : FileReader)
  deriving DecidableEq, Repr

/-- fileReader.Readdir: the pagination core applied to the handle fields.
The Bool is the io.EOF end-of-listing signal.  Note the closed flag is never
consulted. -/
def fileReaderReaddir (f : FileReader) (count : Int) : RdRes :=
  match readdirCore f.fileInfo f.readdir count with
  | (.error e, c2) => .err ⟨"Readdir", f.name, e⟩ { f with readdir := c2 }
  | (.ok pg, c2) => .ok pg.1 pg.2 { f with readdir := c2 }

def rdPage : RdRes → Option (List Nat)
  | .ok p _ _ => some p
  | .err _ _ => none

def rdEof : RdRes → Bool
  | .ok _ b _ => b
  | .err _ _ => false

def rdErr : RdRes → Option PathError
  | .err e _ => some e
  | .ok _ _ _ => none

def rdCache : RdRes → Option (List Nat)
  | .err _ f => f.readdir
  | .ok _ _ f => f.readdir

/-- Repeated paginated Readdir calls until the end-of-listing signal,
collecting the pages and counting how many calls carried the signal. -/
def drainPages (f : FileReader) (count : Int) : Nat → List (List Nat) × Nat
  | 0 => ([], 0)
  | fuel + 1 =>
    match fileReaderReaddir f count with
    | .err _ _ => ([], 0)
    | .ok page true _ => ([page], 1)
    | .ok page false f1 =>
      let r := drainPages f1 count fuel
      (page :: r.1, r.2)

def seekWorld : SeekRes → World
  | .crash w => w
  | .ret _ _ _ w => w

/-! ## Theorems -/

/-! ### Association-list map lemmas -/

theorem lookupM_cons {α β : Type} [DecidableEq α] (k k2 : α) (v : β) (l : List (α × β)) :
    lookupM k ((k2, v) :: l) = if k = k2 then some v else lookupM k l := rfl

theorem lookupM_cons_ne {α β : Type} [DecidableEq α] {k k2 : α} (v : β) (l : List (α × β))
    (h : k ≠ k2) : lookupM k ((k2, v) :: l) = lookupM k l := by
  simp [lookupM_cons, h]

theorem lookupM_cons_self {α β : Type} [DecidableEq α] (k : α) (v : β) (l : List (α × β)) :
    lookupM k ((k, v) :: l) = some v := by
  simp [lookupM_cons]

theorem lookupM_isSome_cons {α β : Type} [DecidableEq α] {k : α} {l : List (α × β)}
    (k2 : α) (v : β) (h : (lookupM k l).isSome) :
    (lookupM k ((k2, v) :: l)).isSome := by
  by_cases hk : k = k2
  · subst hk
    simp [lookupM_cons_self]
  · rwa [lookupM_cons_ne v l hk]

/-! ### Path lemmas -/

theorem dropWhile_head_not {p : Char → Bool} :
    ∀ l : List Char, l.dropWhile p = [] ∨
      ∃ c rest, l.dropWhile p = c :: rest ∧ p c = false := by
  intro l
  induction l with
  | nil => exact Or.inl rfl
  | cons c rest ih =>
    by_cases h : p c
    · simpa [List.dropWhile, h] using ih
    · exact Or.inr ⟨c, rest, by simp [List.dropWhile, h], by simp [h]⟩

/-- strings.TrimRight with cutset "/" never leaves a trailing slash. -/
theorem endsWithSlash_trimRight (s : String) :
    endsWithSlash (trimRightSlashes s) = false := by
  unfold endsWithSlash trimRightSlashes
  rw [decide_eq_false_iff_not]
  intro hcontra
  rw [show (String.mk ((s.toList.reverse.dropWhile (fun c => c = '/')).reverse)).toList
      = (s.toList.reverse.dropWhile (fun c => c = '/')).reverse from rfl,
    List.getLast?_reverse] at hcontra
  rcases @dropWhile_head_not (fun c => decide (c = '/')) s.toList.reverse with
    h | ⟨c, rest, h, hc⟩
  · rw [h] at hcontra
    simp at hcontra
  · rw [h] at hcontra
    simp only [List.head?_cons, Option.some.injEq] at hcontra
    subst hcontra
    simp at hc

/-- The parent key computed by FindOrCreateParent always carries a trailing
slash (with "/" itself as the root case). -/
theorem endsWithSlash_parentName (s : String) :
    endsWithSlash (parentName s) = true := by
  unfold parentName
  by_cases h1 : pathDir (trimRightSlashes s) = "."
  · simp [h1]
    decide
  · by_cases h2 : endsWithSlash (pathDir (trimRightSlashes s)) = false
    · simp only [h1, if_false, h2, if_true]
      unfold endsWithSlash
      rw [decide_eq_true_iff]
      rw [show (pathDir (trimRightSlashes s) ++ "/").toList
          = (pathDir (trimRightSlashes s)).toList ++ ['/'] from String.data_append ..]
      exact List.getLast?_concat _
    · simp only [h1, if_false, h2, if_false]
      simpa using h2

theorem trimRight_ne_slash (s : String) : trimRightSlashes s ≠ "/" := by
  intro h
  have := endsWithSlash_trimRight s
  rw [h] at this
  exact absurd this (by decide)

/-! ### Readdir lemmas -/

/-- fileReader.Readdir reads only the open-name, the node and the cached
child list of the handle: handles agreeing on those three fields produce the
same page, the same end signal, the same error and the same new cache. -/
theorem readdir_congr (f g : FileReader) (c : Int) (h1 : f.fileInfo = g.fileInfo)
    (h2 : f.name = g.name) (h3 : f.readdir = g.readdir) :
    rdPage (fileReaderReaddir f c) = rdPage (fileReaderReaddir g c) ∧
    rdEof (fileReaderReaddir f c) = rdEof (fileReaderReaddir g c) ∧
    rdErr (fileReaderReaddir f c) = rdErr (fileReaderReaddir g c) ∧
    rdCache (fileReaderReaddir f c) = rdCache (fileReaderReaddir g c) := by
  unfold fileReaderReaddir
  rw [h1, h3]
  cases hr : readdirCore g.fileInfo g.readdir c with
  | mk res c2 =>
    cases res <;> simp [rdPage, rdEof, rdErr, rdCache, h2]

/-- An end-of-listing result from the pagination core always resets the
cache to nil. -/
theorem readdirCore_eof_cache (fi : FileInfoN) (cache : Option (List Nat)) (c : Int)
    (pg : List Nat) (c2 : Option (List Nat))
    (h : readdirCore fi cache c = (.ok (pg, true), c2)) : c2 = none := by
  unfold readdirCore at h
  split at h
  · split at h
    · simp at h
    · split at h
      · simp at h
      · simp only [Prod.mk.injEq] at h
        exact h.2.symm
  · split at h
    · simp at h
    · simp at h

/-- An end-of-listing page always resets the cached child list to nil and
leaves the other handle fields alone. -/
theorem readdir_eof_clears_cache (f f1 : FileReader) (c : Int) (page : List Nat)
    (h : fileReaderReaddir f c = .ok page true f1) :
    f1 = { f with readdir := none } := by
  unfold fileReaderReaddir at h
  cases hr : readdirCore f.fileInfo f.readdir c with
  | mk res c2 =>
    rw [hr] at h
    cases res with
    | error e => simp at h
    | ok pg =>
      simp only [RdRes.ok.injEq] at h
      obtain ⟨hpage, heof, hf1⟩ := h
      subst hf1
      cases pg with
      | mk pgl pgb =>
        simp only at heof
        subst heof
        have := readdirCore_eof_cache f.fileInfo f.readdir c pgl c2 hr
        rw [this]

/-!
### C2.
Claim: opening a directory and calling Read returns an error rather than
data, and no reachable input panics; in particular Read on an implicitly
synthesized directory returns an error.

Verdict: code_bug.  For a synthesized directory the node carries no archive
record (zipFile is nil), and Read evaluates f.fileInfo.zipFile.Open(), a
method call through a nil pointer: the program panics instead of returning
an error, contradicting the no-panic contract of the specification.
-/

/-- C2: on the archive whose only entry is "a/b.txt", opening the implicitly
synthesized directory "a" and calling Read dereferences the nil zipFile
pointer (modeled as the crash result) instead of returning an error. -/
theorem c2_read_synthetic_dir_crashes :
    ((New [⟨"a/b.txt", 1, 1, false, [7]⟩]).Open "a").map
      (fun h => fileReaderRead h 1) = .ok .crash := by decide

/-!
### C7.
Claim: Open after the filesystem Close fails with the filesystem-closed
error (distinct from not-found); before Close, a missing path fails with a
not-found error that includes the requested path string.

Verdict: corrected.  The not-found error records path.Clean of the request,
not the request itself: Open "x/../y" reports path "y".
-/

/-- C7 counterexample: the not-found error for the request "x/../y" carries
the cleaned path "y", not the requested path string. -/
theorem c7_counterexample :
    (New [⟨"a.txt", 1, 1, false, [7]⟩]).Open "x/../y" =
      .error (.withPath ⟨"Open", "y", .notExist⟩) ∧
    "y" ≠ "x/../y" := by
  constructor
  · decide
  · decide

/-- C7 (amended): after the filesystem Close, Open fails with the
filesystem-closed sentinel for every path, and that sentinel is distinct
from every not-found path error; before Close, every path missing from the
index fails with a not-found error that records the cleaned requested path. -/
theorem c7_open_errors (fs : ZipFS) (entries : List ZipEntry) (name : String)
    (p : PathError) :
    ((fs.Close.1).Open name = .error (.raw .fileSystemClosed)) ∧
    (FsError.raw .fileSystemClosed ≠ FsError.withPath p) ∧
    (lookupM (trimLeftSlashes (pathClean name)) (buildIndex entries).fm = none →
      (New entries).Open name = .error (.withPath ⟨"Open", pathClean name, .notExist⟩)) := by
  refine ⟨rfl, by simp, ?_⟩
  intro h
  simp [New, ZipFS.Open, openFileInfo, h]

/-- C7 witness: the amended statement applied at a concrete archive and at
the concrete missing path "x/../y". -/
theorem c7_open_errors_witness :
    (((New [⟨"a.txt", 1, 1, false, [7]⟩]).Close.1).Open "q" =
      .error (.raw .fileSystemClosed)) ∧
    (FsError.raw .fileSystemClosed ≠ FsError.withPath ⟨"Open", "q", .notExist⟩) ∧
    ((New [⟨"a.txt", 1, 1, false, [7]⟩]).Open "x/../y" =
      .error (.withPath ⟨"Open", "y", .notExist⟩)) := by
  have h := c7_open_errors (New [⟨"a.txt", 1, 1, false, [7]⟩])
    [⟨"a.txt", 1, 1, false, [7]⟩] "x/../y" ⟨"Open", "q", .notExist⟩
  refine ⟨h.1, h.2.1, ?_⟩
  have h3 := h.2.2 (by decide)
  rw [show pathClean "x/../y" = "y" from by decide] at h3
  exact h3

/-!
### C8.
Claim: Size returns 0 for directory entries, and for files the extended
64-bit size field when nonzero, else the legacy 32-bit field.

Verdict: corrected.  The code returns 0 only when the node has no archive
record (a synthesized directory); an explicit directory entry whose record
carries a nonzero size field gets that size reported.
-/

/-- C8 counterexample: an archive whose entry "d/" is an explicit directory
with extended size field 5; the opened node is a directory yet Size is 5. -/
theorem c8_counterexample :
    ∃ fi, openFileInfo (New [⟨"d/", 0, 5, true, []⟩]) "d" = .ok fi ∧
      fi.IsDir = true ∧ fi.Size = 5 ∧ (5 : Int) ≠ 0 := by
  refine ⟨⟨"d/", some ⟨"d/", 0, 5, true, []⟩, []⟩, by decide, by decide, by decide, by decide⟩

/-- C8 (amended): Size returns 0 exactly for nodes without an archive
record (synthesized directories); for every node carrying a record (file or
explicit directory alike) it returns the extended 64-bit size field as a
signed 64-bit value when that field is nonzero, and the legacy 32-bit field
otherwise. -/
theorem c8_size_field_selection (fi : FileInfoN) (zf : ZipEntry) :
    (fi.zipFile = none → fi.Size = 0) ∧
    (fi.zipFile = some zf → zf.uncompressedSize64 % 2 ^ 64 ≠ 0 →
      fi.Size = int64OfNat zf.uncompressedSize64) ∧
    (fi.zipFile = some zf → zf.uncompressedSize64 % 2 ^ 64 = 0 →
      fi.Size = ((zf.uncompressedSize % 2 ^ 32 : Nat) : Int)) := by
  refine ⟨?_, ?_, ?_⟩
  · intro h
    simp [FileInfoN.Size, h]
  · intro h h64
    simp only [FileInfoN.Size, h, if_neg h64]
    unfold int64OfNat
    rw [Nat.mod_mod_of_dvd _ dvd_rfl]
  · intro h h64
    simp only [FileInfoN.Size, h, if_pos h64]
    unfold int64OfNat
    have hlt : zf.uncompressedSize % 2 ^ 32 < 2 ^ 32 := Nat.mod_lt _ (by norm_num)
    rw [Nat.mod_eq_of_lt (lt_trans hlt (by norm_num))]
    rw [if_pos (lt_trans hlt (by norm_num))]

/-- C8 witness: the three branches of the size rule at concrete nodes. -/
theorem c8_size_field_selection_witness :
    (FileInfoN.Size ⟨"x/", none, []⟩ = 0) ∧
    (FileInfoN.Size ⟨"d/", some ⟨"d/", 0, 5, true, []⟩, []⟩ = int64OfNat 5) ∧
    (FileInfoN.Size ⟨"f", some ⟨"f", 7, 0, false, []⟩, []⟩ = ((7 % 2 ^ 32 : Nat) : Int)) :=
  ⟨(c8_size_field_selection ⟨"x/", none, []⟩ ⟨"d/", 0, 5, true, []⟩).1 rfl,
   (c8_size_field_selection ⟨"d/", some ⟨"d/", 0, 5, true, []⟩, []⟩ ⟨"d/", 0, 5, true, []⟩).2.1
     rfl (by decide),
   (c8_size_field_selection ⟨"f", some ⟨"f", 7, 0, false, []⟩, []⟩ ⟨"f", 7, 0, false, []⟩).2.2
     rfl (by decide)⟩

/-!
### C10.
Claim: Readdir with count at most 0 neither reads nor modifies the
pagination cursor and returns the full child list.

Verdict: confirmed.  The count-nonpositive branch calls fileInfo.readdir()
and leaves f.readdir alone, so an interleaved Readdir(0) cannot perturb an
ongoing pagination.
-/

/-- C10: on a directory handle, Readdir with a nonpositive count returns the
full child list with no end signal and returns the handle unchanged, its
pagination cursor included; hence interleaving such a call leaves any
ongoing pagination exactly as it was. -/
theorem c10_nonpositive_count_is_frame (f : FileReader) (c : Int)
    (hc : c ≤ 0) (hdir : f.fileInfo.modeIsDir = true) :
    fileReaderReaddir f c = .ok f.fileInfo.fileInfos false f := by
  have hnc : ¬ (0 : Int) < c := by omega
  unfold fileReaderReaddir readdirCore
  simp [hnc, FileInfoN.readdirList, hdir]

/-- C10 witness: a directory handle mid-pagination (cursor holding [9]):
the count-0 call returns the full list and the cursor still holds [9]. -/
theorem c10_nonpositive_count_is_frame_witness :
    fileReaderReaddir ⟨"d", ⟨"d/", none, [0, 2]⟩, none, none, false, some [9]⟩ 0 =
      .ok [0, 2] false ⟨"d", ⟨"d/", none, [0, 2]⟩, none, none, false, some [9]⟩ :=
  c10_nonpositive_count_is_frame
    ⟨"d", ⟨"d/", none, [0, 2]⟩, none, none, false, some [9]⟩ 0 (by decide) (by decide)

/-!
### C3.
Claim: after Close on a handle, Read, Seek and Readdir all fail with the
closed-handle error.

Verdict: corrected.  Read and Seek check the closed flag; Readdir never
does, and after Close it still returns the directory listing.
-/

/-- C3 counterexample: open the directory "d", Close the handle (the flag is
then set), and Readdir(0) still succeeds with the full child list instead of
failing with the closed-handle error. -/
theorem c3_counterexample :
    ((New [⟨"d/x.txt", 1, 1, false, [5]⟩]).Open "d").map (fun h =>
      match fileReaderClose h ⟨0, [], 0, 0⟩ with
      | (e1, f1, _) =>
        (e1, f1.closed, rdPage (fileReaderReaddir f1 0), rdErr (fileReaderReaddir f1 0))) =
      .ok (none, true, some [0], none) := by decide

/-- C3 (amended): on a closed handle, Read and Seek fail with the
closed-handle path error; Readdir ignores the closed flag entirely and
behaves exactly as on the open handle (same page, same end signal, same
error, same cursor update). -/
theorem c3_closed_handle_behavior (f : FileReader) (plen : Nat) (off wh : Int) (w : World)
    (c : Int) (h : f.closed = true) :
    fileReaderRead f plen = .ret [] (some (.withPath ⟨"Read", f.name, .fileClosed⟩)) f ∧
    fileReaderSeek f off wh w = .ret 0 (some (.withPath ⟨"Seek", f.name, .fileClosed⟩)) f w ∧
    rdPage (fileReaderReaddir f c) = rdPage (fileReaderReaddir { f with closed := false } c) ∧
    rdEof (fileReaderReaddir f c) = rdEof (fileReaderReaddir { f with closed := false } c) ∧
    rdErr (fileReaderReaddir f c) = rdErr (fileReaderReaddir { f with closed := false } c) ∧
    rdCache (fileReaderReaddir f c) = rdCache (fileReaderReaddir { f with closed := false } c) := by
  have hcong := readdir_congr f { f with closed := false } c rfl rfl rfl
  refine ⟨?_, ?_, hcong.1, hcong.2.1, hcong.2.2.1, hcong.2.2.2⟩
  · unfold fileReaderRead
    simp [h]
  · unfold fileReaderSeek
    simp [h]

/-- C3 witness: the amended statement at a concrete closed directory
handle. -/
theorem c3_closed_handle_behavior_witness :
    (fileReaderRead ⟨"d", ⟨"d/", none, [0]⟩, none, none, true, none⟩ 1 =
      .ret [] (some (.withPath ⟨"Read", "d", .fileClosed⟩))
        ⟨"d", ⟨"d/", none, [0]⟩, none, none, true, none⟩) ∧
    (fileReaderSeek ⟨"d", ⟨"d/", none, [0]⟩, none, none, true, none⟩ 0 0 ⟨0, [], 0, 0⟩ =
      .ret 0 (some (.withPath ⟨"Seek", "d", .fileClosed⟩))
        ⟨"d", ⟨"d/", none, [0]⟩, none, none, true, none⟩ ⟨0, [], 0, 0⟩) ∧
    rdPage (fileReaderReaddir ⟨"d", ⟨"d/", none, [0]⟩, none, none, true, none⟩ 0) =
      rdPage (fileReaderReaddir ⟨"d", ⟨"d/", none, [0]⟩, none, none, false, none⟩ 0) ∧
    rdEof (fileReaderReaddir ⟨"d", ⟨"d/", none, [0]⟩, none, none, true, none⟩ 0) =
      rdEof (fileReaderReaddir ⟨"d", ⟨"d/", none, [0]⟩, none, none, false, none⟩ 0) ∧
    rdErr (fileReaderReaddir ⟨"d", ⟨"d/", none, [0]⟩, none, none, true, none⟩ 0) =
      rdErr (fileReaderReaddir ⟨"d", ⟨"d/", none, [0]⟩, none, none, false, none⟩ 0) ∧
    rdCache (fileReaderReaddir ⟨"d", ⟨"d/", none, [0]⟩, none, none, true, none⟩ 0) =
      rdCache (fileReaderReaddir ⟨"d", ⟨"d/", none, [0]⟩, none, none, false, none⟩ 0) :=
  c3_closed_handle_behavior ⟨"d", ⟨"d/", none, [0]⟩, none, none, true, none⟩ 1 0 0
    ⟨0, [], 0, 0⟩ 0 rfl

/-!
### C4.
Claim: Close called twice returns no error on the second call and does not
attempt to delete the temp file again; only the first Close does release
work.

Verdict: corrected.  Close never consults the closed flag and never nils
the stream or temp-file fields, so every call repeats the whole release
sequence: a second Close on a materialized handle re-closes the already
closed temp file, re-attempts its deletion, and returns a Close path error.
-/

/-- C4 counterexample: materialize a temp file by seeking, Close twice: the
first Close succeeds with one deletion attempt; the second Close performs a
second deletion attempt and returns the already-closed error instead of
nil. -/
theorem c4_counterexample :
    ((New [⟨"f.txt", 3, 3, false, [1, 2, 3]⟩]).Open "f.txt").map (fun h =>
      match fileReaderSeek h 1 0 ⟨0, [], 0, 0⟩ with
      | .crash _ => none
      | .ret _ _ f1 w1 =>
        match fileReaderClose f1 w1 with
        | (e1, f2, w2) =>
          match fileReaderClose f2 w2 with
          | (e2, _, w3) => some (e1, w2.removeCalls, e2, w3.removeCalls)) =
      .ok (some (none, 1, some (.withPath ⟨"Close", "f.txt", .fileAlreadyClosed⟩), 2)) := by
  decide

/-- C4 (amended): Close performs the full release sequence on every call,
not only the first.  On a handle holding an open temp file that exists on
disk, the first Close succeeds, sets the flag, and deletes the file once;
the second Close re-attempts both the temp-file close and the deletion and
returns a Close path error (the already-closed failure). -/
theorem c4_close_repeats_release (f : FileReader) (w : World) (o : OSFile)
    (hfile : f.file = some o) (hopen : o.closed = false) (hmem : o.name ∈ w.existing)
    (hname : o.name ≠ "") :
    (fileReaderClose f w).1 = none ∧
    (fileReaderClose f w).2.1.closed = true ∧
    (fileReaderClose f w).2.2.removeCalls = w.removeCalls + 1 ∧
    (fileReaderClose (fileReaderClose f w).2.1 (fileReaderClose f w).2.2).1 =
      some (.withPath ⟨"Close", f.name, .fileAlreadyClosed⟩) ∧
    (fileReaderClose (fileReaderClose f w).2.1 (fileReaderClose f w).2.2).2.2.removeCalls =
      w.removeCalls + 2 := by
  by_cases hr : f.reader.isSome <;>
    · simp [fileReaderClose, osfClose, osRemove, hfile, hopen, hmem, hname, hr]
      split <;> rfl

/-- C4 witness: the amended statement at a concrete materialized handle. -/
theorem c4_close_repeats_release_witness :
    (fileReaderClose ⟨"f", ⟨"f", some ⟨"f", 1, 1, false, [7]⟩, []⟩, none,
        some ⟨"t0", [7], 0, false⟩, false, none⟩ ⟨1, ["t0"], 0, 1⟩).1 = none ∧
    (fileReaderClose ⟨"f", ⟨"f", some ⟨"f", 1, 1, false, [7]⟩, []⟩, none,
        some ⟨"t0", [7], 0, false⟩, false, none⟩ ⟨1, ["t0"], 0, 1⟩).2.1.closed = true ∧
    (fileReaderClose ⟨"f", ⟨"f", some ⟨"f", 1, 1, false, [7]⟩, []⟩, none,
        some ⟨"t0", [7], 0, false⟩, false, none⟩ ⟨1, ["t0"], 0, 1⟩).2.2.removeCalls = 0 + 1 ∧
    (fileReaderClose
        (fileReaderClose ⟨"f", ⟨"f", some ⟨"f", 1, 1, false, [7]⟩, []⟩, none,
          some ⟨"t0", [7], 0, false⟩, false, none⟩ ⟨1, ["t0"], 0, 1⟩).2.1
        (fileReaderClose ⟨"f", ⟨"f", some ⟨"f", 1, 1, false, [7]⟩, []⟩, none,
          some ⟨"t0", [7], 0, false⟩, false, none⟩ ⟨1, ["t0"], 0, 1⟩).2.2).1 =
      some (.withPath ⟨"Close", "f", .fileAlreadyClosed⟩) ∧
    (fileReaderClose
        (fileReaderClose ⟨"f", ⟨"f", some ⟨"f", 1, 1, false, [7]⟩, []⟩, none,
          some ⟨"t0", [7], 0, false⟩, false, none⟩ ⟨1, ["t0"], 0, 1⟩).2.1
        (fileReaderClose ⟨"f", ⟨"f", some ⟨"f", 1, 1, false, [7]⟩, []⟩, none,
          some ⟨"t0", [7], 0, false⟩, false, none⟩ ⟨1, ["t0"], 0, 1⟩).2.2).2.2.removeCalls =
      0 + 2 :=
  c4_close_repeats_release
    ⟨"f", ⟨"f", some ⟨"f", 1, 1, false, [7]⟩, []⟩, none, some ⟨"t0", [7], 0, false⟩, false, none⟩
    ⟨1, ["t0"], 0, 1⟩ ⟨"t0", [7], 0, false⟩ rfl rfl (by decide) (by decide)

/-!
### C5.
Claim: once a paginated listing is exhausted (a call returned the final
remainder with the end signal), every further positive-count Readdir returns
an empty result with the end signal.

Verdict: corrected.  An end-signal call resets the cache to nil, and the
next positive-count call reloads the full child list and restarts the
pagination from the beginning, returning the first page again.
-/

/-- C5 counterexample: a directory with one child paged with count 2: the
first call returns the remainder [0] with the end signal; the next call
returns [0] with the signal again — not the empty result the claim
demands. -/
theorem c5_counterexample :
    (((New [⟨"d/x.txt", 1, 1, false, [5]⟩]).Open "d").map (fun h =>
      match fileReaderReaddir h 2 with
      | .err _ _ => ([], false, some [], none, false)
      | .ok p1 e1 f1 =>
        (p1, e1, f1.readdir,
          rdPage (fileReaderReaddir f1 2), rdEof (fileReaderReaddir f1 2))) =
      .ok ([0], true, none, some [0], true)) ∧
    (some [0] : Option (List Nat)) ≠ some [] := by
  exact ⟨by decide, by decide⟩

/-- C5 (amended): a Readdir call that returns the end-of-listing signal
resets the cache to nil, and every subsequent Readdir call behaves exactly
like the corresponding call on a freshly opened handle for the same node:
the pagination restarts from the beginning instead of staying exhausted. -/
theorem c5_exhausted_listing_restarts (f : FileReader) (c : Int) (page : List Nat)
    (f1 : FileReader) (d : Int) (h : fileReaderReaddir f c = .ok page true f1) :
    f1.readdir = none ∧
    rdPage (fileReaderReaddir f1 d) =
      rdPage (fileReaderReaddir (openReader f1.fileInfo f1.name) d) ∧
    rdEof (fileReaderReaddir f1 d) =
      rdEof (fileReaderReaddir (openReader f1.fileInfo f1.name) d) ∧
    rdErr (fileReaderReaddir f1 d) =
      rdErr (fileReaderReaddir (openReader f1.fileInfo f1.name) d) ∧
    rdCache (fileReaderReaddir f1 d) =
      rdCache (fileReaderReaddir (openReader f1.fileInfo f1.name) d) := by
  have hf1 := readdir_eof_clears_cache f f1 c page h
  subst hf1
  have hcong := readdir_congr { f with readdir := none }
    (openReader f.fileInfo f.name) d rfl rfl rfl
  exact ⟨rfl, hcong.1, hcong.2.1, hcong.2.2.1, hcong.2.2.2⟩

/-- C5 witness: the amended statement after the concrete exhausting call of
the counterexample. -/
theorem c5_exhausted_listing_restarts_witness :
    (⟨"d", ⟨"d/", none, [0]⟩, none, none, false, none⟩ : FileReader).readdir = none ∧
    rdPage (fileReaderReaddir ⟨"d", ⟨"d/", none, [0]⟩, none, none, false, none⟩ 2) =
      rdPage (fileReaderReaddir (openReader ⟨"d/", none, [0]⟩ "d") 2) ∧
    rdEof (fileReaderReaddir ⟨"d", ⟨"d/", none, [0]⟩, none, none, false, none⟩ 2) =
      rdEof (fileReaderReaddir (openReader ⟨"d/", none, [0]⟩ "d") 2) ∧
    rdErr (fileReaderReaddir ⟨"d", ⟨"d/", none, [0]⟩, none, none, false, none⟩ 2) =
      rdErr (fileReaderReaddir (openReader ⟨"d/", none, [0]⟩ "d") 2) ∧
    rdCache (fileReaderReaddir ⟨"d", ⟨"d/", none, [0]⟩, none, none, false, none⟩ 2) =
      rdCache (fileReaderReaddir (openReader ⟨"d/", none, [0]⟩ "d") 2) :=
  c5_exhausted_listing_restarts ⟨"d", ⟨"d/", none, [0]⟩, none, none, false, none⟩ 2 [0]
    ⟨"d", ⟨"d/", none, [0]⟩, none, none, false, none⟩ 2 (by decide)

/-!
### C6.
Claim: seeking to offset 0 never creates a temp file; any other seek target
materializes at most once per handle and later seeks reuse the temp file.

Verdict: corrected.  The no-materialization special case requires offset 0
together with whence 0 (seek-start): a seek to offset 0 relative to the
current position or to the end materializes a temp file.  The
at-most-once and reuse parts hold.
-/

/-- C6 counterexample: on a fresh file handle, Seek(0, SeekCurrent) — a seek
whose offset is 0 — creates a temp file (the created count rises to 1),
contradicting the claim that offset 0 never materializes. -/
theorem c6_counterexample :
    ((New [⟨"f.txt", 3, 3, false, [1, 2, 3]⟩]).Open "f.txt").map (fun h =>
      match fileReaderSeek h 0 1 ⟨0, [], 0, 0⟩ with
      | .crash _ => none
      | .ret n e f1 w1 => some (n, e, f1.file.isSome, w1.created)) =
      .ok (some (0, none, true, 1)) := by decide

/-- C6 (amended): a seek to offset 0 with whence 0 on an unmaterialized
handle leaves the world untouched (no temp file is created), and every seek
on an already materialized handle also leaves the world untouched (the
existing temp file is reused, so materialization happens at most once per
handle). -/
theorem c6_materialize_at_most_once (f : FileReader) (w : World) (off wh : Int) :
    (f.file = none → seekWorld (fileReaderSeek f 0 0 w) = w) ∧
    (f.file.isSome = true → seekWorld (fileReaderSeek f off wh w) = w) := by
  constructor
  · intro h
    unfold fileReaderSeek
    by_cases hc : f.closed
    · simp [hc, seekWorld]
    · simp only [hc, if_false, h]
      cases hz : f.fileInfo.zipFile <;> simp [seekWorld]
  · intro h
    obtain ⟨o, ho⟩ := Option.isSome_iff_exists.mp h
    have hcond : ¬(f.file.isNone = true ∧ off = 0 ∧ wh = 0) := by simp [ho]
    by_cases hc : f.closed
    · simp [fileReaderSeek, hc, seekWorld]
    · by_cases hr : f.reader.isSome <;>
        · cases hs : osfSeek o off wh <;>
            simp [fileReaderSeek, hc, hcond, createTempFileM, ho, hr, hs, seekWorld]

/-- C6 witness: the amended statement at a fresh file handle (seek-start to
offset 0 does not create a temp file) and at a materialized handle (the seek
reuses the temp file and the world is unchanged). -/
theorem c6_materialize_at_most_once_witness :
    seekWorld (fileReaderSeek
      ⟨"f", ⟨"f", some ⟨"f", 1, 1, false, [7]⟩, []⟩, none, none, false, none⟩ 0 0
      ⟨0, [], 0, 0⟩) = ⟨0, [], 0, 0⟩ ∧
    seekWorld (fileReaderSeek
      ⟨"f", ⟨"f", some ⟨"f", 1, 1, false, [7]⟩, []⟩, none, some ⟨"t0", [7], 0, false⟩,
        false, none⟩ 5 0 ⟨1, ["t0"], 0, 1⟩) = ⟨1, ["t0"], 0, 1⟩ :=
  ⟨(c6_materialize_at_most_once
      ⟨"f", ⟨"f", some ⟨"f", 1, 1, false, [7]⟩, []⟩, none, none, false, none⟩
      ⟨0, [], 0, 0⟩ 5 0).1 rfl,
   (c6_materialize_at_most_once
      ⟨"f", ⟨"f", some ⟨"f", 1, 1, false, [7]⟩, []⟩, none, some ⟨"t0", [7], 0, false⟩,
        false, none⟩ ⟨1, ["t0"], 0, 1⟩ 5 0).2 rfl⟩

/-!
### C9.
Claim: repeated Readdir(count) with a fixed positive count until exhaustion
concatenates to the same sequence as a single Readdir(0) on a fresh handle,
with the end-of-listing signal delivered exactly once, on the final short
page.

Verdict: confirmed.
-/

/-- Draining a handle whose cache holds m yields pages concatenating to m,
with exactly one end-of-listing signal (on the final call, where the drain
stops). -/
theorem drainPages_some (c : Nat) (hc : 0 < c) :
    ∀ fuel m (f : FileReader), m.length < fuel → f.readdir = some m →
      (drainPages f (c : Int) fuel).1.flatten = m ∧ (drainPages f (c : Int) fuel).2 = 1 := by
  intro fuel
  induction fuel with
  | zero =>
    intro m f hlt _
    omega
  | succ k ih =>
    intro m f hlt hcache
    have hcpos : (0 : Int) < (c : Int) := by exact_mod_cast hc
    by_cases hlen : (c : Int) ≤ (m.length : Int)
    · have hstep : fileReaderReaddir f (c : Int) =
          .ok (m.take c) false { f with readdir := some (m.drop c) } := by
        unfold fileReaderReaddir readdirCore
        simp [hcache, hcpos, hlen, Int.toNat_natCast]
      have hlen2 : c ≤ m.length := by exact_mod_cast hlen
      have hrec := ih (m.drop c) { f with readdir := some (m.drop c) }
        (by simp only [List.length_drop]; omega) rfl
      unfold drainPages
      rw [hstep]
      refine ⟨?_, hrec.2⟩
      simp only [List.flatten_cons]
      rw [hrec.1]
      exact List.take_append_drop c m
    · have hstep : fileReaderReaddir f (c : Int) =
          .ok m true { f with readdir := none } := by
        unfold fileReaderReaddir readdirCore
        simp [hcache, hcpos, hlen]
      unfold drainPages
      rw [hstep]
      simp

/-- With a positive count, a directory handle with a nil cache paginates
exactly like one whose cache holds the full child list: the nil check
reloads the listing inside the same call. -/
theorem readdir_none_loads (f : FileReader) (c : Int) (hc : (0 : Int) < c)
    (hdir : f.fileInfo.modeIsDir = true) (hcache : f.readdir = none) :
    fileReaderReaddir f c =
      fileReaderReaddir { f with readdir := some f.fileInfo.fileInfos } c := by
  unfold fileReaderReaddir readdirCore
  simp [hcache, hc, FileInfoN.readdirList, hdir]

/-- C9: on a fresh directory handle, repeated Readdir with a fixed positive
count until the end-of-listing signal produces pages whose concatenation is
exactly the full child list — the sequence a single Readdir(0) call on the
fresh handle returns — and the signal is delivered exactly once, on the
final call of the drain. -/
theorem c9_pagination_concat (fi : FileInfoN) (name : String) (c : Nat) (hc : 0 < c)
    (hdir : fi.modeIsDir = true) :
    ∃ pages,
      drainPages (openReader fi name) (c : Int) (fi.fileInfos.length + 1) = (pages, 1) ∧
      pages.flatten = fi.fileInfos ∧
      fileReaderReaddir (openReader fi name) 0 =
        .ok fi.fileInfos false (openReader fi name) := by
  have hcpos : (0 : Int) < (c : Int) := by exact_mod_cast hc
  have hzero : fileReaderReaddir (openReader fi name) 0 =
      .ok fi.fileInfos false (openReader fi name) := by
    unfold fileReaderReaddir readdirCore
    simp [openReader, FileInfoN.readdirList, hdir]
  have hfirst := readdir_none_loads (openReader fi name) (c : Int) hcpos hdir rfl
  have hdrain := drainPages_some c hc (fi.fileInfos.length + 1) fi.fileInfos
    { openReader fi name with readdir := some fi.fileInfos } (by omega) rfl
  have heq : drainPages (openReader fi name) (c : Int) (fi.fileInfos.length + 1) =
      drainPages { openReader fi name with readdir := some fi.fileInfos } (c : Int)
        (fi.fileInfos.length + 1) := by
    unfold drainPages
    rw [hfirst]
    rfl
  refine ⟨(drainPages (openReader fi name) (c : Int) (fi.fileInfos.length + 1)).1,
    ?_, ?_, hzero⟩
  · have h2 : (drainPages (openReader fi name) (c : Int) (fi.fileInfos.length + 1)).2 = 1 := by
      rw [heq]
      exact hdrain.2
    calc drainPages (openReader fi name) (c : Int) (fi.fileInfos.length + 1)
        = ((drainPages (openReader fi name) (c : Int) (fi.fileInfos.length + 1)).1,
           (drainPages (openReader fi name) (c : Int) (fi.fileInfos.length + 1)).2) := rfl
      _ = ((drainPages (openReader fi name) (c : Int) (fi.fileInfos.length + 1)).1, 1) := by
          rw [h2]
  · rw [heq]
    exact hdrain.1

/-- C9 witness: a directory with three children paged with count 2: pages
[[0, 2], [3]], one end signal, concatenation equal to the Readdir(0)
listing. -/
theorem c9_pagination_concat_witness :
    ∃ pages,
      drainPages (openReader ⟨"d/", none, [0, 2, 3]⟩ "d") ((2 : Nat) : Int) 4 = (pages, 1) ∧
      pages.flatten = [0, 2, 3] ∧
      fileReaderReaddir (openReader ⟨"d/", none, [0, 2, 3]⟩ "d") 0 =
        .ok [0, 2, 3] false (openReader ⟨"d/", none, [0, 2, 3]⟩ "d") :=
  c9_pagination_concat ⟨"d/", none, [0, 2, 3]⟩ "d" 2 (by decide) (by decide)

/-!
### C1 machinery: preservation of the build invariants by each operation.
-/

theorem FindOrCreate_found {st : BuildSt} {name : String} {nid : Nat}
    (h : lookupM name st.fm = some nid) : FindOrCreate st name = (nid, st) := by
  unfold FindOrCreate
  rw [h]

theorem FindOrCreate_new {st : BuildSt} {name : String}
    (h : lookupM name st.fm = none) :
    FindOrCreate st name =
      (st.next,
        { fm := if trimRightSlashes name ≠ name
            then (trimRightSlashes name, st.next) :: (name, st.next) :: st.fm
            else (name, st.next) :: st.fm,
          store := (st.next, ⟨name, none, []⟩) :: st.store,
          next := st.next + 1 }) := by
  unfold FindOrCreate
  rw [h]

theorem FOC_store_pres {st : BuildSt} {name : String} (hwf : wfSt st) {n : Nat} {x : FileInfoN}
    (h : lookupM n st.store = some x) :
    lookupM n (FindOrCreate st name).2.store = some x := by
  cases hl : lookupM name st.fm with
  | some nid =>
    rw [FindOrCreate_found hl]
    exact h
  | none =>
    rw [FindOrCreate_new hl]
    have hn : n < st.next := hwf n (by rw [h]; rfl)
    simp only
    rw [lookupM_cons_ne _ _ (by omega : n ≠ st.next)]
    exact h

theorem FOC_store_bwd {st : BuildSt} {name : String} {n : Nat} {x : FileInfoN}
    (h : lookupM n (FindOrCreate st name).2.store = some x) :
    lookupM n st.store = some x ∨ x.zipFile = none := by
  cases hl : lookupM name st.fm with
  | some nid =>
    rw [FindOrCreate_found hl] at h
    exact Or.inl h
  | none =>
    rw [FindOrCreate_new hl] at h
    simp only at h
    by_cases he : n = st.next
    · subst he
      rw [lookupM_cons_self] at h
      cases h
      exact Or.inr rfl
    · rw [lookupM_cons_ne _ _ he] at h
      exact Or.inl h

theorem FOC_ret_isSome {st : BuildSt} {name : String} (hfm : fmOk st) :
    (lookupM (FindOrCreate st name).1 (FindOrCreate st name).2.store).isSome = true := by
  cases hl : lookupM name st.fm with
  | some nid =>
    rw [FindOrCreate_found hl]
    exact hfm name nid hl
  | none =>
    rw [FindOrCreate_new hl]
    simp [lookupM_cons_self]

theorem FOC_fm_self {st : BuildSt} {name : String} :
    lookupM name (FindOrCreate st name).2.fm = some (FindOrCreate st name).1 := by
  cases hl : lookupM name st.fm with
  | some nid =>
    rw [FindOrCreate_found hl]
    exact hl
  | none =>
    rw [FindOrCreate_new hl]
    simp only
    by_cases hs : trimRightSlashes name = name
    · rw [if_neg (fun hne => hne hs)]
      exact lookupM_cons_self _ _ _
    · rw [if_pos hs]
      rw [lookupM_cons_ne _ _ (fun hcontra => hs hcontra.symm)]
      exact lookupM_cons_self _ _ _

theorem FOC_fm_pres_slash {st : BuildSt} {name k : String} {v : Nat}
    (hk : endsWithSlash k = true) (h : lookupM k st.fm = some v) :
    lookupM k (FindOrCreate st name).2.fm = some v := by
  cases hl : lookupM name st.fm with
  | some nid =>
    rw [FindOrCreate_found hl]
    exact h
  | none =>
    rw [FindOrCreate_new hl]
    simp only
    have hne1 : k ≠ name := by
      rintro rfl
      rw [h] at hl
      exact Option.noConfusion hl
    have hne2 : k ≠ trimRightSlashes name := by
      rintro rfl
      rw [endsWithSlash_trimRight] at hk
      exact Bool.noConfusion hk
    by_cases hs : trimRightSlashes name = name
    · rw [if_neg (fun hne => hne hs)]
      rw [lookupM_cons_ne _ _ hne1]
      exact h
    · rw [if_pos hs]
      rw [lookupM_cons_ne _ _ hne2, lookupM_cons_ne _ _ hne1]
      exact h

theorem FOC_fm_isSome {st : BuildSt} {name k : String}
    (h : (lookupM k st.fm).isSome = true) :
    (lookupM k (FindOrCreate st name).2.fm).isSome = true := by
  cases hl : lookupM name st.fm with
  | some nid =>
    rw [FindOrCreate_found hl]
    exact h
  | none =>
    rw [FindOrCreate_new hl]
    simp only
    by_cases hs : trimRightSlashes name = name
    · rw [if_neg (fun hne => hne hs)]
      exact lookupM_isSome_cons _ _ h
    · rw [if_pos hs]
      exact lookupM_isSome_cons _ _ (lookupM_isSome_cons _ _ h)

theorem FOC_wf {st : BuildSt} {name : String} (hwf : wfSt st) :
    wfSt (FindOrCreate st name).2 := by
  cases hl : lookupM name st.fm with
  | some nid =>
    rw [FindOrCreate_found hl]
    exact hwf
  | none =>
    rw [FindOrCreate_new hl]
    intro n hn
    simp only at hn ⊢
    by_cases he : n = st.next
    · omega
    · rw [lookupM_cons_ne _ _ he] at hn
      have := hwf n hn
      omega

theorem FOC_fmOk {st : BuildSt} {name : String} (hfm : fmOk st) :
    fmOk (FindOrCreate st name).2 := by
  cases hl : lookupM name st.fm with
  | some nid =>
    rw [FindOrCreate_found hl]
    exact hfm
  | none =>
    rw [FindOrCreate_new hl]
    intro k nid hk
    simp only at hk ⊢
    have hstep : lookupM k ((name, st.next) :: st.fm) = some nid →
        (lookupM nid ((st.next, (⟨name, none, []⟩ : FileInfoN)) :: st.store)).isSome = true := by
      intro hk2
      by_cases hk1 : k = name
      · subst hk1
        rw [lookupM_cons_self] at hk2
        cases hk2
        simp [lookupM_cons_self]
      · rw [lookupM_cons_ne _ _ hk1] at hk2
        exact lookupM_isSome_cons _ _ (hfm k nid hk2)
    by_cases hs : trimRightSlashes name = name
    · rw [if_neg (fun hne => hne hs)] at hk
      exact hstep hk
    · rw [if_pos hs] at hk
      by_cases hk0 : k = trimRightSlashes name
      · subst hk0
        rw [lookupM_cons_self] at hk
        cases hk
        simp [lookupM_cons_self]
      · rw [lookupM_cons_ne _ _ hk0] at hk
        exact hstep hk

theorem FOC_rootAlias {st : BuildSt} {name : String} (hra : rootAlias st) :
    rootAlias (FindOrCreate st name).2 := by
  cases hl : lookupM name st.fm with
  | some nid =>
    rw [FindOrCreate_found hl]
    exact hra
  | none =>
    rw [FindOrCreate_new hl]
    intro hroot
    simp only at hroot ⊢
    by_cases hn : name = "/"
    · subst hn
      rw [if_pos (by decide : trimRightSlashes "/" ≠ "/")]
      rw [show trimRightSlashes "/" = "" from by decide]
      simp [lookupM_cons_self]
    · have hslash1 : ("/" : String) ≠ name := fun hcontra => hn hcontra.symm
      have hslash2 : ("/" : String) ≠ trimRightSlashes name :=
        fun hcontra => trimRight_ne_slash name hcontra.symm
      by_cases hs : trimRightSlashes name = name
      · rw [if_neg (fun hne => hne hs)] at hroot ⊢
        rw [lookupM_cons_ne _ _ hslash1] at hroot
        exact lookupM_isSome_cons _ _ (hra hroot)
      · rw [if_pos hs] at hroot ⊢
        rw [lookupM_cons_ne _ _ hslash2, lookupM_cons_ne _ _ hslash1] at hroot
        exact lookupM_isSome_cons _ _ (lookupM_isSome_cons _ _ (hra hroot))

theorem FOC_childMem {st : BuildSt} {name : String} {p c : Nat} (hwf : wfSt st)
    (h : childMem st p c) : childMem (FindOrCreate st name).2 p c := by
  obtain ⟨pnode, hp, hc⟩ := h
  exact ⟨pnode, FOC_store_pres hwf hp, hc⟩

theorem FOC_parentLinked {st : BuildSt} {name : String} (hwf : wfSt st)
    (hP : parentLinked st) : parentLinked (FindOrCreate st name).2 := by
  intro n node zf hn hzf
  rcases FOC_store_bwd hn with hold | hnone
  · obtain ⟨pid, hpid, hcm⟩ := hP n node zf hold hzf
    exact ⟨pid, FOC_fm_pres_slash (endsWithSlash_parentName _) hpid, FOC_childMem hwf hcm⟩
  · rw [hnone] at hzf
    exact Option.noConfusion hzf

theorem setZip_id {st : BuildSt} {nid : Nat} {zf : ZipEntry}
    (h : lookupM nid st.store = none) : setZipFile st nid zf = st := by
  unfold setZipFile
  rw [h]

theorem setZip_fm (st : BuildSt) (nid : Nat) (zf : ZipEntry) :
    (setZipFile st nid zf).fm = st.fm := by
  unfold setZipFile
  cases lookupM nid st.store <;> rfl

theorem setZip_next (st : BuildSt) (nid : Nat) (zf : ZipEntry) :
    (setZipFile st nid zf).next = st.next := by
  unfold setZipFile
  cases lookupM nid st.store <;> rfl

theorem setZip_store_ne {st : BuildSt} {nid : Nat} {zf : ZipEntry} {n : Nat} (h : n ≠ nid) :
    lookupM n (setZipFile st nid zf).store = lookupM n st.store := by
  unfold setZipFile
  cases lookupM nid st.store with
  | none => rfl
  | some x => exact lookupM_cons_ne _ _ h

theorem setZip_store_self {st : BuildSt} {nid : Nat} {zf : ZipEntry} {x : FileInfoN}
    (h : lookupM nid st.store = some x) :
    lookupM nid (setZipFile st nid zf).store = some { x with zipFile := some zf } := by
  unfold setZipFile
  rw [h]
  exact lookupM_cons_self _ _ _

theorem setZip_store_isSome {st : BuildSt} {nid : Nat} {zf : ZipEntry} {n : Nat}
    (h : (lookupM n st.store).isSome = true) :
    (lookupM n (setZipFile st nid zf).store).isSome = true := by
  by_cases he : n = nid
  · subst he
    obtain ⟨x, hx⟩ := Option.isSome_iff_exists.mp h
    rw [setZip_store_self hx]
    rfl
  · rw [setZip_store_ne he]
    exact h

theorem setZip_wf {st : BuildSt} {nid : Nat} {zf : ZipEntry} (hwf : wfSt st) :
    wfSt (setZipFile st nid zf) := by
  intro n hn
  rw [setZip_next]
  by_cases he : n = nid
  · subst he
    cases hl : lookupM n st.store with
    | none =>
      rw [setZip_id hl] at hn
      exact hwf n hn
    | some x => exact hwf n (by rw [hl]; rfl)
  · rw [setZip_store_ne he] at hn
    exact hwf n hn

theorem setZip_fmOk {st : BuildSt} {nid : Nat} {zf : ZipEntry} (hfm : fmOk st) :
    fmOk (setZipFile st nid zf) := by
  intro k n hk
  rw [setZip_fm] at hk
  exact setZip_store_isSome (hfm k n hk)

theorem setZip_rootAlias {st : BuildSt} {nid : Nat} {zf : ZipEntry} (hra : rootAlias st) :
    rootAlias (setZipFile st nid zf) := by
  intro h
  rw [setZip_fm] at h ⊢
  exact hra h

theorem setZip_childMem {st : BuildSt} {nid : Nat} {zf : ZipEntry} {p c : Nat}
    (h : childMem st p c) : childMem (setZipFile st nid zf) p c := by
  obtain ⟨pnode, hp, hc⟩ := h
  by_cases he : p = nid
  · subst he
    exact ⟨{ pnode with zipFile := some zf }, setZip_store_self hp, hc⟩
  · exact ⟨pnode, by rw [setZip_store_ne he]; exact hp, hc⟩

theorem appendChild_id {st : BuildSt} {pid cid : Nat}
    (h : lookupM pid st.store = none) : appendChild st pid cid = st := by
  unfold appendChild
  rw [h]

theorem appendChild_fm (st : BuildSt) (pid cid : Nat) :
    (appendChild st pid cid).fm = st.fm := by
  unfold appendChild
  cases lookupM pid st.store <;> rfl

theorem appendChild_next (st : BuildSt) (pid cid : Nat) :
    (appendChild st pid cid).next = st.next := by
  unfold appendChild
  cases lookupM pid st.store <;> rfl

theorem appendChild_store_ne {st : BuildSt} {pid cid : Nat} {n : Nat} (h : n ≠ pid) :
    lookupM n (appendChild st pid cid).store = lookupM n st.store := by
  unfold appendChild
  cases lookupM pid st.store with
  | none => rfl
  | some x => exact lookupM_cons_ne _ _ h

theorem appendChild_store_self {st : BuildSt} {pid cid : Nat} {x : FileInfoN}
    (h : lookupM pid st.store = some x) :
    lookupM pid (appendChild st pid cid).store =
      some { x with fileInfos := x.fileInfos ++ [cid] } := by
  unfold appendChild
  rw [h]
  exact lookupM_cons_self _ _ _

theorem appendChild_store_bwd {st : BuildSt} {pid cid : Nat} {n : Nat} {x : FileInfoN}
    (h : lookupM n (appendChild st pid cid).store = some x) :
    ∃ y, lookupM n st.store = some y ∧ y.zipFile = x.zipFile ∧
      (∀ c, c ∈ y.fileInfos → c ∈ x.fileInfos) := by
  by_cases he : n = pid
  · subst he
    cases hl : lookupM n st.store with
    | none =>
      rw [appendChild_id hl] at h
      rw [h] at hl
      exact Option.noConfusion hl
    | some y =>
      rw [appendChild_store_self hl] at h
      cases h
      exact ⟨y, rfl, rfl, fun c hc => List.mem_append_left _ hc⟩
  · rw [appendChild_store_ne he] at h
    exact ⟨x, h, rfl, fun c hc => hc⟩

theorem appendChild_store_isSome {st : BuildSt} {pid cid : Nat} {n : Nat}
    (h : (lookupM n st.store).isSome = true) :
    (lookupM n (appendChild st pid cid).store).isSome = true := by
  by_cases he : n = pid
  · subst he
    obtain ⟨x, hx⟩ := Option.isSome_iff_exists.mp h
    rw [appendChild_store_self hx]
    rfl
  · rw [appendChild_store_ne he]
    exact h

theorem appendChild_wf {st : BuildSt} {pid cid : Nat} (hwf : wfSt st) :
    wfSt (appendChild st pid cid) := by
  intro n hn
  rw [appendChild_next]
  obtain ⟨x, hx⟩ := Option.isSome_iff_exists.mp hn
  obtain ⟨y, hy, -, -⟩ := appendChild_store_bwd hx
  exact hwf n (by rw [hy]; rfl)

theorem appendChild_fmOk {st : BuildSt} {pid cid : Nat} (hfm : fmOk st) :
    fmOk (appendChild st pid cid) := by
  intro k n hk
  rw [appendChild_fm] at hk
  exact appendChild_store_isSome (hfm k n hk)

theorem appendChild_rootAlias {st : BuildSt} {pid cid : Nat} (hra : rootAlias st) :
    rootAlias (appendChild st pid cid) := by
  intro h
  rw [appendChild_fm] at h ⊢
  exact hra h

theorem appendChild_childMem {st : BuildSt} {pid cid : Nat} {p c : Nat}
    (h : childMem st p c) : childMem (appendChild st pid cid) p c := by
  obtain ⟨pnode, hp, hc⟩ := h
  by_cases he : p = pid
  · subst he
    exact ⟨{ pnode with fileInfos := pnode.fileInfos ++ [cid] },
      appendChild_store_self hp, List.mem_append_left _ hc⟩
  · exact ⟨pnode, by rw [appendChild_store_ne he]; exact hp, hc⟩

theorem appendChild_childMem_self {st : BuildSt} {pid cid : Nat}
    (h : (lookupM pid st.store).isSome = true) :
    childMem (appendChild st pid cid) pid cid := by
  obtain ⟨x, hx⟩ := Option.isSome_iff_exists.mp h
  exact ⟨{ x with fileInfos := x.fileInfos ++ [cid] }, appendChild_store_self hx, by simp⟩

theorem mem_insertSorted {st : BuildSt} {x a : Nat} :
    ∀ l : List Nat, (a ∈ insertSorted st x l ↔ a = x ∨ a ∈ l) := by
  intro l
  induction l with
  | nil => simp [insertSorted]
  | cons y rest ih =>
    unfold insertSorted
    by_cases hless : nodeLess st y x
    · rw [if_pos hless]
      simp only [List.mem_cons, ih]
      tauto
    · rw [if_neg hless]
      simp [List.mem_cons]

theorem mem_sortIds {st : BuildSt} {a : Nat} :
    ∀ l : List Nat, (a ∈ sortIds st l ↔ a ∈ l) := by
  intro l
  induction l with
  | nil => simp [sortIds]
  | cons y rest ih =>
    unfold sortIds
    rw [mem_insertSorted]
    simp only [List.mem_cons, ih]

theorem sortNode_fm (st : BuildSt) (nid : Nat) : (sortNode st nid).fm = st.fm := by
  unfold sortNode
  cases lookupM nid st.store with
  | none => rfl
  | some node =>
    simp only
    split <;> rfl

theorem sortNode_next (st : BuildSt) (nid : Nat) : (sortNode st nid).next = st.next := by
  unfold sortNode
  cases lookupM nid st.store with
  | none => rfl
  | some node =>
    simp only
    split <;> rfl

theorem sortNode_store_bwd {st : BuildSt} {nid : Nat} {n : Nat} {x : FileInfoN}
    (h : lookupM n (sortNode st nid).store = some x) :
    ∃ y, lookupM n st.store = some y ∧ y.zipFile = x.zipFile ∧
      (∀ c, c ∈ y.fileInfos ↔ c ∈ x.fileInfos) := by
  unfold sortNode at h
  cases hl : lookupM nid st.store with
  | none =>
    rw [hl] at h
    exact ⟨x, h, rfl, fun c => Iff.rfl⟩
  | some node =>
    rw [hl] at h
    simp only at h
    by_cases hlen : 1 < node.fileInfos.length
    · rw [if_pos hlen] at h
      by_cases he : n = nid
      · subst he
        rw [lookupM_cons_self] at h
        cases h
        exact ⟨node, hl, rfl, fun c => (mem_sortIds _).symm⟩
      · rw [lookupM_cons_ne _ _ he] at h
        exact ⟨x, h, rfl, fun c => Iff.rfl⟩
    · rw [if_neg hlen] at h
      exact ⟨x, h, rfl, fun c => Iff.rfl⟩

theorem sortNode_store_isSome {st : BuildSt} {nid : Nat} {n : Nat}
    (h : (lookupM n st.store).isSome = true) :
    (lookupM n (sortNode st nid).store).isSome = true := by
  unfold sortNode
  cases hl : lookupM nid st.store with
  | none => exact h
  | some node =>
    simp only
    split
    · by_cases he : n = nid
      · subst he
        rw [lookupM_cons_self]
        rfl
      · rw [lookupM_cons_ne _ _ he]
        exact h
    · exact h

theorem sortNode_childMem {st : BuildSt} {nid : Nat} {p c : Nat}
    (h : childMem st p c) : childMem (sortNode st nid) p c := by
  obtain ⟨pnode, hp, hc⟩ := h
  unfold sortNode
  cases hl : lookupM nid st.store with
  | none => exact ⟨pnode, hp, hc⟩
  | some node =>
    simp only
    split
    · by_cases he : p = nid
      · subst he
        rw [hp] at hl
        cases hl
        exact ⟨_, lookupM_cons_self _ _ _, (mem_sortIds _).mpr hc⟩
      · exact ⟨pnode, by rw [lookupM_cons_ne _ _ he]; exact hp, hc⟩
    · exact ⟨pnode, hp, hc⟩

theorem sortNode_inv {st : BuildSt} {nid : Nat} (h : InvSt st) : InvSt (sortNode st nid) := by
  obtain ⟨hwf, hfm, hra, hP⟩ := h
  refine ⟨?_, ?_, ?_, ?_⟩
  · intro n hn
    rw [sortNode_next]
    obtain ⟨x, hx⟩ := Option.isSome_iff_exists.mp hn
    obtain ⟨y, hy, -, -⟩ := sortNode_store_bwd hx
    exact hwf n (by rw [hy]; rfl)
  · intro k n hk
    rw [sortNode_fm] at hk
    exact sortNode_store_isSome (hfm k n hk)
  · intro hroot
    rw [sortNode_fm] at hroot ⊢
    exact hra hroot
  · intro n node zf hn hzf
    obtain ⟨y, hy, hzip, -⟩ := sortNode_store_bwd hn
    rw [hzf] at hzip
    obtain ⟨pid, hpid, hcm⟩ := hP n y zf hy hzip
    refine ⟨pid, ?_, sortNode_childMem hcm⟩
    rw [sortNode_fm]
    exact hpid

theorem foldl_sortNode_inv (l : List Nat) :
    ∀ st : BuildSt, InvSt st → InvSt (l.foldl sortNode st) := by
  induction l with
  | nil => intro st h; exact h
  | cons x rest ih =>
    intro st h
    exact ih _ (sortNode_inv h)

theorem foldl_sortNode_fm (l : List Nat) :
    ∀ st : BuildSt, (l.foldl sortNode st).fm = st.fm := by
  induction l with
  | nil => intro st; rfl
  | cons x rest ih =>
    intro st
    rw [List.foldl_cons, ih, sortNode_fm]

theorem sortPass_inv {st : BuildSt} (h : InvSt st) : InvSt (sortPass st) :=
  foldl_sortNode_inv _ st h

theorem sortPass_fm (st : BuildSt) : (sortPass st).fm = st.fm :=
  foldl_sortNode_fm _ st

/-- The single-entry step of New preserves all build invariants; in
particular the freshly recorded node is linked into the child list of the
node registered under its parent key. -/
theorem addEntry_inv {st : BuildSt} {e : ZipEntry} (h : InvSt st) : InvSt (addEntry st e) := by
  obtain ⟨hwf, hfm, hra, hP⟩ := h
  unfold addEntry FindOrCreateParent
  set r1 := FindOrCreate st e.name with hr1
  set st2 := setZipFile r1.2 r1.1 e with hst2
  set r3 := FindOrCreate st2 (parentName e.name) with hr3
  -- invariant pieces along the chain
  have hwf1 : wfSt r1.2 := FOC_wf hwf
  have hfm1 : fmOk r1.2 := FOC_fmOk hfm
  have hra1 : rootAlias r1.2 := FOC_rootAlias hra
  have hwf2 : wfSt st2 := setZip_wf hwf1
  have hfm2 : fmOk st2 := setZip_fmOk hfm1
  have hra2 : rootAlias st2 := setZip_rootAlias hra1
  have hwf3 : wfSt r3.2 := FOC_wf hwf2
  have hfm3 : fmOk r3.2 := FOC_fmOk hfm2
  have hra3 : rootAlias r3.2 := FOC_rootAlias hra2
  -- the node of the current entry exists and carries its record in st2
  have hsome1 : (lookupM r1.1 r1.2.store).isSome = true := FOC_ret_isSome hfm
  obtain ⟨x1, hx1⟩ := Option.isSome_iff_exists.mp hsome1
  have hx2 : lookupM r1.1 st2.store = some { x1 with zipFile := some e } :=
    setZip_store_self hx1
  -- the parent node exists in r3.2
  have hpar_isSome : (lookupM r3.1 r3.2.store).isSome = true := FOC_ret_isSome hfm2
  have hpar_fm : lookupM (parentName e.name) r3.2.fm = some r3.1 := FOC_fm_self
  refine ⟨appendChild_wf hwf3, appendChild_fmOk hfm3, appendChild_rootAlias hra3, ?_⟩
  intro n node zf hn hzf
  obtain ⟨y, hy3, hzip, hsub⟩ := appendChild_store_bwd hn
  rw [hzf] at hzip
  -- the parent key of the appended child is registered and contains it
  have hfm4 : (appendChild r3.2 r3.1 r1.1).fm = r3.2.fm := appendChild_fm _ _ _
  by_cases he : n = r1.1
  · -- the current node: linked by this very step
    subst he
    -- its value in r3.2 traces to st2, where its record is e
    rcases FOC_store_bwd hy3 with hy2 | hynone
    · rw [hx2] at hy2
      cases hy2
      simp only at hzip
      cases hzip
      refine ⟨r3.1, ?_, ?_⟩
      · rw [hfm4]
        exact hpar_fm
      · exact appendChild_childMem_self hpar_isSome
    · rw [hynone] at hzip
      exact Option.noConfusion hzip
  · -- an older node: transport its link through the whole chain
    rcases FOC_store_bwd hy3 with hy2 | hynone
    · have hy1 : lookupM n r1.2.store = some y := by
        rw [← @setZip_store_ne r1.2 r1.1 e n he]
        exact hy2
      rcases FOC_store_bwd hy1 with hy0 | hynone0
      · obtain ⟨pid, hpid, hcm⟩ := hP n y zf hy0 hzip
        refine ⟨pid, ?_, ?_⟩
        · rw [hfm4]
          have h1 : lookupM (parentName zf.name) r1.2.fm = some pid :=
            FOC_fm_pres_slash (endsWithSlash_parentName zf.name) hpid
          have h2 : lookupM (parentName zf.name) st2.fm = some pid := by
            rw [hst2, setZip_fm]
            exact h1
          exact FOC_fm_pres_slash (endsWithSlash_parentName zf.name) h2
        · exact appendChild_childMem
            (FOC_childMem hwf2 (setZip_childMem (FOC_childMem hwf hcm)))
      · rw [hynone0] at hzip
        exact Option.noConfusion hzip
    · rw [hynone] at hzip
      exact Option.noConfusion hzip

theorem foldl_addEntry_inv (es : List ZipEntry) :
    ∀ st : BuildSt, InvSt st → InvSt (es.foldl addEntry st) := by
  induction es with
  | nil => intro st h; exact h
  | cons e rest ih => intro st h; exact ih _ (addEntry_inv h)

theorem addEntry_fm_isSome {st : BuildSt} {e : ZipEntry} {k : String}
    (h : (lookupM k st.fm).isSome = true) :
    (lookupM k (addEntry st e).fm).isSome = true := by
  unfold addEntry FindOrCreateParent
  rw [appendChild_fm]
  apply FOC_fm_isSome
  rw [setZip_fm]
  exact FOC_fm_isSome h

theorem foldl_addEntry_fm_isSome (es : List ZipEntry) :
    ∀ (st : BuildSt) (k : String), (lookupM k st.fm).isSome = true →
      (lookupM k (es.foldl addEntry st).fm).isSome = true := by
  induction es with
  | nil => intro st k h; exact h
  | cons e rest ih => intro st k h; exact ih _ k (addEntry_fm_isSome h)

/-- Processing an entry whose parent key is the root registers the root
under the empty-string alias Open consults. -/
theorem addEntry_root_established {st : BuildSt} {e : ZipEntry} (h : InvSt st)
    (hp : parentName e.name = "/") :
    (lookupM "" (addEntry st e).fm).isSome = true := by
  obtain ⟨hwf, hfm, hra, hP⟩ := h
  unfold addEntry FindOrCreateParent
  rw [hp]
  rw [appendChild_fm]
  have hra2 : rootAlias (setZipFile (FindOrCreate st e.name).2 (FindOrCreate st e.name).1 e) :=
    setZip_rootAlias (FOC_rootAlias hra)
  cases hl : lookupM "/"
      (setZipFile (FindOrCreate st e.name).2 (FindOrCreate st e.name).1 e).fm with
  | some pid =>
    rw [FindOrCreate_found hl]
    exact hra2 (by rw [hl]; rfl)
  | none =>
    rw [FindOrCreate_new hl]
    simp only
    rw [if_pos (by decide : trimRightSlashes "/" ≠ "/")]
    rw [show trimRightSlashes "/" = "" from by decide]
    simp [lookupM_cons_self]

theorem emptySt_inv : InvSt ⟨[], [], 0⟩ := by
  refine ⟨?_, ?_, ?_, ?_⟩
  · intro n hn
    simp [lookupM] at hn
  · intro k n hk
    simp [lookupM] at hk
  · intro h
    simp [lookupM] at h
  · intro n node zf hn
    simp [lookupM] at hn

theorem buildIndex_inv (entries : List ZipEntry) : InvSt (buildIndex entries) := by
  unfold buildIndex
  exact sortPass_inv (foldl_addEntry_inv entries _ emptySt_inv)

theorem buildIndex_root {entries : List ZipEntry} {e : ZipEntry}
    (he : e ∈ entries) (hp : parentName e.name = "/") :
    (lookupM "" (buildIndex entries).fm).isSome = true := by
  unfold buildIndex
  rw [sortPass_fm]
  obtain ⟨s, t, rfl⟩ := List.append_of_mem he
  rw [List.foldl_append, List.foldl_cons]
  exact foldl_addEntry_fm_isSome t _ ""
    (addEntry_root_established (foldl_addEntry_inv s _ emptySt_inv) hp)

theorem open_root_ok {entries : List ZipEntry}
    (h : (lookupM "" (buildIndex entries).fm).isSome = true) :
    ∃ hdl, (New entries).Open "/" = .ok hdl := by
  obtain ⟨nid, hnid⟩ := Option.isSome_iff_exists.mp h
  obtain ⟨fi, hfi⟩ := Option.isSome_iff_exists.mp
    ((buildIndex_inv entries).2.1 "" nid hnid)
  refine ⟨openReader fi "/", ?_⟩
  unfold New ZipFS.Open openFileInfo
  simp [show trimLeftSlashes (pathClean "/") = "" from by decide, hnid, hfi]

/-!
### C1.
Claim: after New, the index always contains a root directory reachable via
Open("/"), and every non-root entry in the index has exactly one parent
directory entry whose child list contains it, created implicitly when
absent.

Verdict: corrected.  Only the entries listed in the archive are linked to a
(find-or-create) parent; the implicitly created intermediate directories are
not themselves linked anywhere, and the root only exists when some listed
entry sits at the top level.  An archive listing only a deeply nested file
(or no file at all) produces an index with no root: Open("/") fails with
not-found.
-/

/-- C1 counterexample: the archive whose single entry is "a/b/c.txt" yields
an index with no root entry: Open("/") fails with not-found, refuting the
claim that every archive produces a root reachable via Open("/") (the
synthesized parent "a/b/" is itself linked to no parent either). -/
theorem c1_counterexample :
    (New [⟨"a/b/c.txt", 3, 3, false, [1, 2, 3]⟩]).Open "/" =
      .error (.withPath ⟨"Open", "/", .notExist⟩) := by decide

/-- C1 (amended): after New, every node that carries an archive record (that
is, every entry listed in the archive) is contained in the child list of the
node registered under its parent key, the parent being created implicitly
when the archive does not mention it; and the root is reachable via
Open("/") whenever some listed entry resolves to the root as its parent.
(Implicitly created directories carry no record and are not themselves
linked; an archive with no top-level entry has no root.) -/
theorem c1_index_parent_links (entries : List ZipEntry) :
    (∀ nid node zf, lookupM nid (buildIndex entries).store = some node →
        node.zipFile = some zf →
        ∃ pid, lookupM (parentName zf.name) (buildIndex entries).fm = some pid ∧
          childMem (buildIndex entries) pid nid) ∧
    (∀ e, e ∈ entries → parentName e.name = "/" →
        ∃ hdl, (New entries).Open "/" = .ok hdl) := by
  constructor
  · exact (buildIndex_inv entries).2.2.2
  · intro e he hp
    exact open_root_ok (buildIndex_root he hp)

/-- C1 witness: in the archive with the single top-level entry "a.txt", the
recorded node (id 0) is a child of the node under its parent key "/", and
Open("/") succeeds. -/
theorem c1_index_parent_links_witness :
    (∃ pid, lookupM (parentName "a.txt")
        (buildIndex [⟨"a.txt", 1, 1, false, [7]⟩]).fm = some pid ∧
      childMem (buildIndex [⟨"a.txt", 1, 1, false, [7]⟩]) pid 0) ∧
    (∃ hdl, (New [⟨"a.txt", 1, 1, false, [7]⟩]).Open "/" = .ok hdl) :=
  ⟨(c1_index_parent_links [⟨"a.txt", 1, 1, false, [7]⟩]).1 0
      ⟨"a.txt", some ⟨"a.txt", 1, 1, false, [7]⟩, []⟩
      ⟨"a.txt", 1, 1, false, [7]⟩ (by decide) (by decide),
   (c1_index_parent_links [⟨"a.txt", 1, 1, false, [7]⟩]).2
      ⟨"a.txt", 1, 1, false, [7]⟩ (by decide) (by decide)⟩

end Zipfs
